import Mathlib

/-
Verification development for the mockturtle index-list codec
(`include/mockturtle/utils/index_list.hpp`) and the cell-window builder
(`include/mockturtle/algorithms/cell_window.hpp`).

Shallow embedding conventions:
* `uint32_t` values are modelled as `Nat`.  Bit operations on header words
  are translated to their arithmetic equivalents on 32-bit values:
  `x >> 16` becomes `x / 65536`, `x & 0xff` becomes `x % 256`,
  `x & 0xffff` becomes `x % 65536`,
  `x & 0xffff00ff` becomes `(x / 65536 % 65536) * 65536 + x % 256`, and
  `(a << 16) | (b & 0xffff)` becomes `a * 65536 + b % 65536` (the two
  operands occupy disjoint bit ranges, so `|` coincides with `+`).
  Underflow of a `uint32_t` decrement is modelled explicitly via `dec32`.
* An `assert(...)` or a fatal `std::abort()` path is modelled as a guard:
  the operation returns `none` exactly when the condition fails.
* Literals are `2 * index + complement` as in the source; `lit >> 1` is
  `lit / 2` and `lit % 2` is kept as is.
-/

namespace Mockturtle

/-! ### `abc_index_list` (index_list.hpp lines 56-180) -/

/-- State of an `abc_index_list`: the raw `values` vector together with the
private counters `_num_pis` and `_num_pos`. -/
structure abc_index_list where
  num_pis : Nat
  num_pos : Nat
  values : List Nat
  deriving DecidableEq, Repr

/-- `abc_index_list( uint32_t num_pis )`: pushes the two constant entries
`0, 1`, then `num_pis` pairs `(0, 0)` (via `add_inputs`). -/
def abc_index_list.new (num_pis : Nat) : abc_index_list :=
  { num_pis := num_pis
    num_pos := 0
    values := [0, 1] ++ List.replicate (2 * num_pis) 0 }

/-- The leading-`(0,0)`-pair scan of the `abc_index_list` raw-values
constructor: counts how many `(0, 0)` pairs follow the two-constant prefix
(loop condition `(i+1) < values.size()`). -/
def abcScanPis : List Nat → Nat
  | 0 :: 0 :: rest => 1 + abcScanPis rest
  | _ => 0

/-- The trailing scan of the `abc_index_list` raw-values constructor: counts
pairs with equal components among the remaining pairs (step 2, condition
`(i+1) < values.size()`, so a trailing odd element is ignored). -/
def abcScanPos : List Nat → Nat
  | a :: b :: rest => (if a = b then 1 else 0) + abcScanPos rest
  | _ => 0

/-- `abc_index_list( std::vector<uint32_t> const& values )`: adopts `values`
and recovers `_num_pis` / `_num_pos` by scanning. -/
def abc_index_list.from_raw (values : List Nat) : abc_index_list :=
  let p := abcScanPis (values.drop 2)
  { num_pis := p
    num_pos := abcScanPos (values.drop (2 + 2 * p))
    values := values }

/-- `abc_index_list::size()`. -/
def abc_index_list.size (l : abc_index_list) : Nat :=
  l.values.length

/-- `abc_index_list::num_gates()`:
`( values.size() - ( ( 1 + _num_pis + _num_pos ) << 1u ) ) >> 1u`. -/
def abc_index_list.num_gates (l : abc_index_list) : Nat :=
  (l.values.length - 2 * (1 + l.num_pis + l.num_pos)) / 2

/-- `abc_index_list::add_inputs( uint32_t num_pis )`. -/
def abc_index_list.add_inputs (l : abc_index_list) (n : Nat) : abc_index_list :=
  { l with num_pis := l.num_pis + n
           values := l.values ++ List.replicate (2 * n) 0 }

/-- `abc_index_list::add_and`: `assert( lit0 < lit1 )`, then push both
literals. -/
def abc_index_list.add_and (l : abc_index_list) (lit0 lit1 : Nat) :
    Option abc_index_list :=
  if lit0 < lit1 then some { l with values := l.values ++ [lit0, lit1] } else none

/-- `abc_index_list::add_xor`: `assert( lit0 > lit1 )`, then push both
literals. -/
def abc_index_list.add_xor (l : abc_index_list) (lit0 lit1 : Nat) :
    Option abc_index_list :=
  if lit0 > lit1 then some { l with values := l.values ++ [lit0, lit1] } else none

/-- `abc_index_list::add_output`: increments `_num_pos` and pushes the PO
literal twice. -/
def abc_index_list.add_output (l : abc_index_list) (lit : Nat) : abc_index_list :=
  { l with num_pos := l.num_pos + 1
           values := l.values ++ [lit, lit] }

/-- The pair enumeration loop shared by `foreach_entry`:
`for ( i = start; i < stop; i += 2 ) fn( values.at(i), values.at(i+1) )`.
Structural recursion on `fuel`, which `idxPairs` seeds with `stop - i`: the
loop advances `i` by 2 but `fuel` only by 1, so the guard `i < stop` always
fails before the fuel runs out. -/
def idxPairsGo (vs : List Nat) (stop : Nat) : Nat → Nat → List (Nat × Nat)
  | 0, _ => []
  | fuel + 1, i =>
    if i < stop then (vs.getD i 0, vs.getD (i + 1) 0) :: idxPairsGo vs stop fuel (i + 2)
    else []

/-- The pair enumeration loop, entry point. -/
def idxPairs (vs : List Nat) (i stop : Nat) : List (Nat × Nat) :=
  idxPairsGo vs stop (stop - i) i

/-- `abc_index_list::foreach_entry`: gate entries are the pairs at positions
`(1 + _num_pis) << 1 ≤ i < values.size() - (_num_pos << 1)`. -/
def abc_index_list.entries (l : abc_index_list) : List (Nat × Nat) :=
  idxPairs l.values (2 * (1 + l.num_pis)) (l.values.length - 2 * l.num_pos)

/-- `abc_index_list::foreach_po`: the loop
`for ( i = values.size() - _num_pos; i < values.size(); ++i ) fn( values.at(i) )`,
i.e. the last `_num_pos` raw entries, one by one. -/
def abc_index_list.pos (l : abc_index_list) : List Nat :=
  l.values.drop (l.values.length - l.num_pos)

/-! ### `xag_index_list` (index_list.hpp lines 594-684) -/

/-- State of a `xag_index_list`: just the raw `values` vector; element 0 is
the packed header `(num_gates << 16) | (num_pos << 8) | num_pis`. -/
structure xag_index_list where
  values : List Nat
  deriving DecidableEq, Repr

/-- `xag_index_list( uint32_t num_pis )`: `values( {num_pis} )`. -/
def xag_index_list.new (num_pis : Nat) : xag_index_list :=
  { values := [num_pis] }

/-- `values.at( 0 )`, the packed header word. -/
def xag_index_list.header (l : xag_index_list) : Nat :=
  l.values.headD 0

/-- `xag_index_list::num_gates()`: `values.at( 0 ) >> 16`. -/
def xag_index_list.num_gates (l : xag_index_list) : Nat :=
  l.header / 65536

/-- `xag_index_list::num_pis()`: `values.at( 0 ) & 0xff`. -/
def xag_index_list.num_pis (l : xag_index_list) : Nat :=
  l.header % 256

/-- `xag_index_list::num_pos()`: `( values.at( 0 ) >> 8 ) & 0xff`. -/
def xag_index_list.num_pos (l : xag_index_list) : Nat :=
  l.header / 256 % 256

/-- `xag_index_list::size()`. -/
def xag_index_list.size (l : xag_index_list) : Nat :=
  l.values.length

/-- `xag_index_list::add_inputs( uint32_t n )`:
`assert( num_pis() + n <= 0xff ); values.at( 0u ) += n;`. -/
def xag_index_list.add_inputs (l : xag_index_list) (n : Nat) :
    Option xag_index_list :=
  if l.num_pis + n ≤ 255 then some { values := (l.header + n) :: l.values.tail }
  else none

/-- `xag_index_list::add_and`: `assert( num_gates() + 1u <= 0xffff )`, update
the header gate field, push both literals.  There is no ordering check on the
literals. -/
def xag_index_list.add_and (l : xag_index_list) (lit0 lit1 : Nat) :
    Option xag_index_list :=
  if l.num_gates + 1 ≤ 65535 then
    some { values := ((l.num_gates + 1) * 65536 + l.header % 65536)
                       :: (l.values.tail ++ [lit0, lit1]) }
  else none

/-- `xag_index_list::add_xor`: identical body to `add_and` (again no ordering
check on the literals). -/
def xag_index_list.add_xor (l : xag_index_list) (lit0 lit1 : Nat) :
    Option xag_index_list :=
  if l.num_gates + 1 ≤ 65535 then
    some { values := ((l.num_gates + 1) * 65536 + l.header % 65536)
                       :: (l.values.tail ++ [lit0, lit1]) }
  else none

/-- `xag_index_list::add_output`: `assert( num_pos() + 1 <= 0xff )`, update
the header PO field (`( num_pos() + 1 ) << 8 | ( values.at(0) & 0xffff00ff )`),
push the literal once. -/
def xag_index_list.add_output (l : xag_index_list) (lit : Nat) :
    Option xag_index_list :=
  if l.num_pos + 1 ≤ 255 then
    some { values := ((l.num_pos + 1) * 256 +
                        (l.header / 65536 % 65536) * 65536 + l.header % 256)
                       :: (l.values.tail ++ [lit]) }
  else none

/-- `xag_index_list::foreach_entry`: pairs at positions
`1 ≤ i < values.size() - num_pos()`, step 2. -/
def xag_index_list.entries (l : xag_index_list) : List (Nat × Nat) :=
  idxPairs l.values 1 (l.values.length - l.num_pos)

/-- `xag_index_list::foreach_po`: the last `num_pos()` raw entries. -/
def xag_index_list.pos (l : xag_index_list) : List Nat :=
  l.values.drop (l.values.length - l.num_pos)

/-! ### `mig_index_list` (index_list.hpp lines 348-431) -/

/-- State of a `mig_index_list`: the raw `values` vector; element 0 is the
packed header, gates are literal triples. -/
structure mig_index_list where
  values : List Nat
  deriving DecidableEq, Repr

/-- `mig_index_list( uint32_t num_pis )`: `values( {num_pis} )`. -/
def mig_index_list.new (num_pis : Nat) : mig_index_list :=
  { values := [num_pis] }

/-- `values.at( 0 )`, the packed header word. -/
def mig_index_list.header (l : mig_index_list) : Nat :=
  l.values.headD 0

/-- `mig_index_list::num_gates()`: `values.at( 0 ) >> 16`. -/
def mig_index_list.num_gates (l : mig_index_list) : Nat :=
  l.header / 65536

/-- `mig_index_list::num_pis()`: `values.at( 0 ) & 0xff`. -/
def mig_index_list.num_pis (l : mig_index_list) : Nat :=
  l.header % 256

/-- `mig_index_list::num_pos()`: `( values.at( 0 ) >> 8 ) & 0xff`. -/
def mig_index_list.num_pos (l : mig_index_list) : Nat :=
  l.header / 256 % 256

/-- `mig_index_list::size()`. -/
def mig_index_list.size (l : mig_index_list) : Nat :=
  l.values.length

/-- `mig_index_list::add_inputs( uint32_t n )`. -/
def mig_index_list.add_inputs (l : mig_index_list) (n : Nat) :
    Option mig_index_list :=
  if l.num_pis + n ≤ 255 then some { values := (l.header + n) :: l.values.tail }
  else none

/-- `mig_index_list::add_maj`: `assert( num_gates() + 1u <= 0xffff )`, update
the header gate field, push the three literals. -/
def mig_index_list.add_maj (l : mig_index_list) (lit0 lit1 lit2 : Nat) :
    Option mig_index_list :=
  if l.num_gates + 1 ≤ 65535 then
    some { values := ((l.num_gates + 1) * 65536 + l.header % 65536)
                       :: (l.values.tail ++ [lit0, lit1, lit2]) }
  else none

/-- `mig_index_list::add_output`. -/
def mig_index_list.add_output (l : mig_index_list) (lit : Nat) :
    Option mig_index_list :=
  if l.num_pos + 1 ≤ 255 then
    some { values := ((l.num_pos + 1) * 256 +
                        (l.header / 65536 % 65536) * 65536 + l.header % 256)
                       :: (l.values.tail ++ [lit]) }
  else none

/-- The triple enumeration loop of `mig_index_list::foreach_entry`:
`for ( i = 1; i < values.size() - num_pos(); i += 3 )`; fuel as in
`idxPairsGo`. -/
def idxTriplesGo (vs : List Nat) (stop : Nat) : Nat → Nat → List (Nat × Nat × Nat)
  | 0, _ => []
  | fuel + 1, i =>
    if i < stop then
      (vs.getD i 0, vs.getD (i + 1) 0, vs.getD (i + 2) 0) ::
        idxTriplesGo vs stop fuel (i + 3)
    else []

/-- The triple enumeration loop, entry point. -/
def idxTriples (vs : List Nat) (i stop : Nat) : List (Nat × Nat × Nat) :=
  idxTriplesGo vs stop (stop - i) i

/-- `mig_index_list::foreach_entry`. -/
def mig_index_list.entries (l : mig_index_list) : List (Nat × Nat × Nat) :=
  idxTriples l.values 1 (l.values.length - l.num_pos)

/-- `mig_index_list::foreach_po`: the last `num_pos()` raw entries. -/
def mig_index_list.pos (l : mig_index_list) : List Nat :=
  l.values.drop (l.values.length - l.num_pos)

/-! ### Host networks for `insert` / `decode` / `encode`

The network implementation itself is not part of the two source files; the
spec (§3, §6) declares it an external dependency exposing
`get_constant(false)`, `create_pi`, `create_and`, `create_xor`, `create_maj`,
`create_not`, `create_po`, with `literal = 2·index + complement_bit`,
node index 0 the constant, PI `k` at index `k`, and gate `k` at index
`num_pis + k` (normalised index order). -/

/-- Modelled from the spec: a fresh structural AND/XOR host network (the
network classes are outside the two source files).  Nodes are positional:
node `0` is constant false, nodes `1..num_pis` the PIs, node `num_pis+k+1`
the `k`-th created gate.  A gate stores `(is_xor, lit0, lit1)` with fanin
literals `2·index + complement`; `pos` stores PO literals. -/
structure XagNtk where
  num_pis : Nat
  gates : List (Bool × Nat × Nat)
  pos : List Nat
  deriving DecidableEq, Repr

/-- Modelled from the spec: `create_and` appends a fresh AND gate and returns
the uncomplemented literal of the new node `num_pis + num_gates + 1`. -/
def XagNtk.create_and (n : XagNtk) (s0 s1 : Nat) : XagNtk × Nat :=
  ({ n with gates := n.gates ++ [(false, s0, s1)] },
   2 * (n.num_pis + n.gates.length + 1))

/-- Modelled from the spec: `create_xor` appends a fresh XOR gate. -/
def XagNtk.create_xor (n : XagNtk) (s0 s1 : Nat) : XagNtk × Nat :=
  ({ n with gates := n.gates ++ [(true, s0, s1)] },
   2 * (n.num_pis + n.gates.length + 1))

/-- Modelled from the spec: `create_po` records a PO literal. -/
def XagNtk.create_po (n : XagNtk) (s : Nat) : XagNtk :=
  { n with pos := n.pos ++ [s] }

/-- Modelled from the spec: a fresh structural majority host network, with
the same positional node numbering as `XagNtk`. -/
structure MigNtk where
  num_pis : Nat
  gates : List (Nat × Nat × Nat)
  pos : List Nat
  deriving DecidableEq, Repr

/-- Modelled from the spec: `create_maj` appends a fresh majority gate. -/
def MigNtk.create_maj (n : MigNtk) (s0 s1 s2 : Nat) : MigNtk × Nat :=
  ({ n with gates := n.gates ++ [(s0, s1, s2)] },
   2 * (n.num_pis + n.gates.length + 1))

/-- Modelled from the spec: `create_po` records a PO literal. -/
def MigNtk.create_po (n : MigNtk) (s : Nat) : MigNtk :=
  { n with pos := n.pos ++ [s] }

/-- Modelled from the spec: `get_constant( false )` is the uncomplemented
literal of node 0. -/
def constantFalseLit : Nat := 0

/-- The build-time signal table of the three `insert` functions right after
the input phase: `signals.emplace_back( ntk.get_constant( false ) )` followed
by one entry per input signal. -/
def insertTable (inputs : List Nat) : List Nat :=
  constantFalseLit :: inputs

/-- Literal resolution inside `insert`:
`( lit % 2 ) ? !signals.at( lit >> 1 ) : signals.at( lit >> 1 )`.
The bounds-checked `std::vector::at` is modelled by `List.get?`; complementing
a host literal (`!signal` / `create_not`) toggles its low bit. -/
def resolveLit (signals : List Nat) (lit : Nat) : Option Nat :=
  match signals.get? (lit / 2) with
  | some s => some (if lit % 2 = 1 then s ^^^ 1 else s)
  | none => none

/-- The gate-creation choice of the `abc` `insert` lambda:
`lit0 < lit1 ? ntk.create_and( s0, s1 ) : ntk.create_xor( s0, s1 )`. -/
def abcInsertStep (ntk : XagNtk) (s0 s1 : Nat) (lit0 lit1 : Nat) : XagNtk × Nat :=
  if lit0 < lit1 then ntk.create_and s0 s1 else ntk.create_xor s0 s1

/-- The gate-creation choice of the `xag` `insert` lambda:
`lit0 > lit1 ? ntk.create_xor( s0, s1 ) : ntk.create_and( s0, s1 )`. -/
def xagInsertStep (ntk : XagNtk) (s0 s1 : Nat) (lit0 lit1 : Nat) : XagNtk × Nat :=
  if lit0 > lit1 then ntk.create_xor s0 s1 else ntk.create_and s0 s1

/-- The `foreach_entry` loop of the `abc`/`xag` `insert`: for each gate entry
`assert( lit0 != lit1 )`, resolve both literals through the signal table,
create the gate, append the new signal. -/
def pairInsertLoop (step : XagNtk → Nat → Nat → Nat → Nat → XagNtk × Nat) :
    List (Nat × Nat) → XagNtk → List Nat → Option (XagNtk × List Nat)
  | [], ntk, signals => some (ntk, signals)
  | (lit0, lit1) :: rest, ntk, signals =>
    if lit0 = lit1 then none
    else
      match resolveLit signals lit0, resolveLit signals lit1 with
      | some s0, some s1 =>
        let p := step ntk s0 s1 lit0 lit1
        pairInsertLoop step rest p.1 (signals ++ [p.2])
      | _, _ => none

/-- The `foreach_po` loop of `insert`: resolve each PO literal through the
signal table and hand it to the callback (collected as a list here); a
failing bounds check aborts the loop. -/
def poResolve (signals : List Nat) : List Nat → Option (List Nat)
  | [] => some []
  | p :: rest =>
    match resolveLit signals p, poResolve signals rest with
    | some s, some ss => some (s :: ss)
    | _, _ => none

/-- `insert( ntk, begin, end, abc_index_list const&, fn )`, lines 278-313.
No precondition relates the number of inputs to `num_pis`.  Returns the host
network after gate creation together with the resolved PO signals. -/
def abc_insert (ntk : XagNtk) (inputs : List Nat) (l : abc_index_list) :
    Option (XagNtk × List Nat) :=
  match pairInsertLoop abcInsertStep l.entries ntk (insertTable inputs) with
  | some (ntk', signals) =>
    match poResolve signals l.pos with
    | some ps => some (ntk', ps)
    | none => none
  | none => none

/-- `insert( ntk, begin, end, xag_index_list const&, fn )`, lines 784-819:
`assert( std::distance( begin, end ) == indices.num_pis() )`, then the same
loop shape with the `xag` discriminator. -/
def xag_insert (ntk : XagNtk) (inputs : List Nat) (l : xag_index_list) :
    Option (XagNtk × List Nat) :=
  if inputs.length = l.num_pis then
    match pairInsertLoop xagInsertStep l.entries ntk (insertTable inputs) with
    | some (ntk', signals) =>
      match poResolve signals l.pos with
      | some ps => some (ntk', ps)
      | none => none
    | none => none
  else none

/-- The `foreach_entry` loop of the `mig` `insert`: no distinctness assert,
three literals resolved, `create_maj`. -/
def migInsertLoop :
    List (Nat × Nat × Nat) → MigNtk → List Nat → Option (MigNtk × List Nat)
  | [], ntk, signals => some (ntk, signals)
  | (lit0, lit1, lit2) :: rest, ntk, signals =>
    match resolveLit signals lit0, resolveLit signals lit1,
          resolveLit signals lit2 with
    | some s0, some s1, some s2 =>
      let p := ntk.create_maj s0 s1 s2
      migInsertLoop rest p.1 (signals ++ [p.2])
    | _, _, _ => none

/-- `insert( ntk, begin, end, mig_index_list const&, fn )`, lines 520-550. -/
def mig_insert (ntk : MigNtk) (inputs : List Nat) (l : mig_index_list) :
    Option (MigNtk × List Nat) :=
  match migInsertLoop l.entries ntk (insertTable inputs) with
  | some (ntk', signals) =>
    match poResolve signals l.pos with
    | some ps => some (ntk', ps)
    | none => none
  | none => none

/-- `decode( ntk, indices )` for an `abc_index_list`, lines 852-867: create
`num_pis()` PIs in a fresh host (PI `k+1` has literal `2·(k+1)`), `insert`,
and route every emitted PO signal through `create_po`. -/
def abc_decode (l : abc_index_list) : Option XagNtk :=
  let inputs := (List.range l.num_pis).map (fun k => 2 * (k + 1))
  match abc_insert { num_pis := l.num_pis, gates := [], pos := [] } inputs l with
  | some (ntk, ps) => some (ps.foldl XagNtk.create_po ntk)
  | none => none

/-- `decode` for a `xag_index_list`. -/
def xag_decode (l : xag_index_list) : Option XagNtk :=
  let inputs := (List.range l.num_pis).map (fun k => 2 * (k + 1))
  match xag_insert { num_pis := l.num_pis, gates := [], pos := [] } inputs l with
  | some (ntk, ps) => some (ps.foldl XagNtk.create_po ntk)
  | none => none

/-- `decode` for a `mig_index_list`. -/
def mig_decode (l : mig_index_list) : Option MigNtk :=
  let inputs := (List.range l.num_pis).map (fun k => 2 * (k + 1))
  match mig_insert { num_pis := l.num_pis, gates := [], pos := [] } inputs l with
  | some (ntk, ps) => some (ps.foldl MigNtk.create_po ntk)
  | none => none

/-- The gate loop of `encode( abc_index_list&, ntk )`, lines 229-255, over the
intrinsically normalised `XagNtk` model: gate `k` has node index
`num_pis + k + 1`; each fanin literal is checked to reference an index not
greater than the gate's own index (`std::abort()` otherwise, modelled as
`none`), then `add_and` / `add_xor` is called according to `is_and` /
`is_xor`. -/
def abcEncodeGates (num_pis : Nat) :
    Nat → List (Bool × Nat × Nat) → abc_index_list → Option abc_index_list
  | _, [], acc => some acc
  | k, (isXor, lit0, lit1) :: rest, acc =>
    if lit0 / 2 > num_pis + k + 1 ∨ lit1 / 2 > num_pis + k + 1 then none
    else
      match (if isXor then acc.add_xor lit0 lit1 else acc.add_and lit0 lit1) with
      | some acc' => abcEncodeGates num_pis (k + 1) rest acc'
      | none => none

/-- `encode( abc_index_list& indices, Ntk const& ntk )`, lines 199-263.  The
normalised-index-order checks on PIs and gates hold by construction in the
positional `XagNtk` model; the final
`assert( indices.size() == (1 + num_pis + num_gates + num_pos) << 1 )`
is kept as a guard. -/
def abc_encode (indices : abc_index_list) (ntk : XagNtk) : Option abc_index_list :=
  match abcEncodeGates ntk.num_pis 0 ntk.gates (indices.add_inputs ntk.num_pis) with
  | some l =>
    let l' := ntk.pos.foldl abc_index_list.add_output l
    if l'.values.length =
        2 * (1 + ntk.num_pis + ntk.gates.length + ntk.pos.length) then some l'
    else none
  | none => none

/-! ### Truth-table semantics of the host networks -/

/-- Value of a host literal given the table of node values. -/
def litVal (tbl : List Bool) (lit : Nat) : Bool :=
  xor (tbl.getD (lit / 2) false) (lit % 2 = 1)

/-- Node-value table of an `XagNtk` under an assignment to the PIs: constant
false, the PI values, then each gate's value in creation order. -/
def XagNtk.simTable (n : XagNtk) (asn : List Bool) : List Bool :=
  n.gates.foldl
    (fun tbl g =>
      tbl ++ [if g.1 then xor (litVal tbl g.2.1) (litVal tbl g.2.2)
              else litVal tbl g.2.1 && litVal tbl g.2.2])
    (false :: asn)

/-- The Boolean values computed by the POs of an `XagNtk` under an
assignment. -/
def XagNtk.poVals (n : XagNtk) (asn : List Bool) : List Bool :=
  n.pos.map (litVal (n.simTable asn))

/-! ### Index-list construction sequences (public API) -/

/-- A public-API operation on an `abc_index_list`. -/
inductive AbcOp where
  | inputs (n : Nat)
  | andGate (lit0 lit1 : Nat)
  | xorGate (lit0 lit1 : Nat)
  | output (lit : Nat)
  deriving DecidableEq, Repr

/-- Apply one `abc_index_list` operation (assertion failures give `none`). -/
def abcApply (l : abc_index_list) : AbcOp → Option abc_index_list
  | .inputs n => some (l.add_inputs n)
  | .andGate a b => l.add_and a b
  | .xorGate a b => l.add_xor a b
  | .output x => some (l.add_output x)

/-- Run a sequence of operations from a freshly constructed `abc_index_list`. -/
def abcRun (num_pis : Nat) (ops : List AbcOp) : Option abc_index_list :=
  ops.foldlM abcApply (abc_index_list.new num_pis)

/-- A public-API operation on a `xag_index_list`. -/
inductive XagOp where
  | inputs (n : Nat)
  | andGate (lit0 lit1 : Nat)
  | xorGate (lit0 lit1 : Nat)
  | output (lit : Nat)
  deriving DecidableEq, Repr

/-- Apply one `xag_index_list` operation. -/
def xagApply (l : xag_index_list) : XagOp → Option xag_index_list
  | .inputs n => l.add_inputs n
  | .andGate a b => l.add_and a b
  | .xorGate a b => l.add_xor a b
  | .output x => l.add_output x

/-- Run a sequence of operations from a freshly constructed `xag_index_list`. -/
def xagRun (num_pis : Nat) (ops : List XagOp) : Option xag_index_list :=
  ops.foldlM xagApply (xag_index_list.new num_pis)

/-- A public-API operation on a `mig_index_list`. -/
inductive MigOp where
  | inputs (n : Nat)
  | majGate (lit0 lit1 lit2 : Nat)
  | output (lit : Nat)
  deriving DecidableEq, Repr

/-- Apply one `mig_index_list` operation. -/
def migApply (l : mig_index_list) : MigOp → Option mig_index_list
  | .inputs n => l.add_inputs n
  | .majGate a b c => l.add_maj a b c
  | .output x => l.add_output x

/-- Run a sequence of operations from a freshly constructed `mig_index_list`. -/
def migRun (num_pis : Nat) (ops : List MigOp) : Option mig_index_list :=
  ops.foldlM migApply (mig_index_list.new num_pis)

/-! ### Well-formedness of lists w.r.t. the `insert` signal table -/

/-- A literal is resolvable against a signal table of `t` entries. -/
def litOk (t lit : Nat) : Bool := lit / 2 < t

/-- Topological well-formedness of `abc`/`xag` gate entries against a signal
table that starts with `t` entries and grows by one per gate; also records
the `assert( lit0 != lit1 )` of the two pair-insert lambdas. -/
def pairEntriesOk : Nat → List (Nat × Nat) → Bool
  | _, [] => true
  | t, (a, b) :: rest => (a != b) && litOk t a && litOk t b && pairEntriesOk (t + 1) rest

/-- Topological well-formedness of `mig` gate entries (no distinctness
assert). -/
def trioEntriesOk : Nat → List (Nat × Nat × Nat) → Bool
  | _, [] => true
  | t, (a, b, c) :: rest =>
    litOk t a && litOk t b && litOk t c && trioEntriesOk (t + 1) rest

/-- All PO literals are resolvable against a table of `t` entries. -/
def poLitsOk (t : Nat) : List Nat → Bool
  | [] => true
  | p :: rest => litOk t p && poLitsOk t rest

/-! ### Cell windowing (cell_window.hpp)

The mapped network is the abstract capability set of §6: nodes are their
`node_to_index` values, and the network exposes the predicates, the
enumeration lists and the (cell-)fanin maps consumed by `cell_window`. -/

/-- The network interface consumed by `cell_window` (spec §6): constants,
node predicates, gate and PO enumerations, fanin and cell-fanin. -/
structure CellNtk where
  const_false : Nat
  const_true : Nat
  is_pi : Nat → Bool
  is_constant : Nat → Bool
  is_cell_root : Nat → Bool
  gateList : List Nat
  poList : List Nat
  fanin : Nat → List Nat
  cell_fanin : Nat → List Nat

/-- Pointwise update of a node-indexed map. -/
def updFn (f : Nat → Nat) (x v : Nat) : Nat → Nat :=
  fun y => if y = x then v else f y

/-- `uint32_t` decrement (`_cell_refs[n]--`), wrapping at 0. -/
def dec32 (r : Nat) : Nat := (r + 4294967295) % 4294967296

/-- `uint32_t` increment (`_cell_refs[n]++`). -/
def inc32 (r : Nat) : Nat := (r + 1) % 4294967296

/-- `cell_window::init_cell_refs` (lines 147-162): for every cell root, bump
the ref count of each of its cell-fanins; then bump the ref count of every
PO target. -/
def init_cell_refs (ntk : CellNtk) : Nat → Nat :=
  let r1 := ntk.gateList.foldl
    (fun r g =>
      if ntk.is_cell_root g then
        (ntk.cell_fanin g).foldl (fun r2 m => updFn r2 m (inc32 (r2 m))) r
      else r)
    (fun _ => 0)
  ntk.poList.foldl (fun r m => updFn r m (inc32 (r m))) r1

/-- The `_cell_parents[n]` map built by `init_cell_refs`: the cell roots that
list `n` among their cell-fanin, in gate order, one occurrence per listing. -/
def cell_parents (ntk : CellNtk) (n : Nat) : List Nat :=
  ntk.gateList.foldl
    (fun acc g =>
      if ntk.is_cell_root g then
        acc ++ ((ntk.cell_fanin g).filter (fun m => m == n)).map (fun _ => g)
      else acc)
    []

/-- The mutable state of a `cell_window`: the four node sets, the ref-count
working map, and the network's traversal marks. -/
structure WinSt where
  nodes : List Nat
  gates : List Nat
  leaves : List Nat
  roots : List Nat
  cell_refs : Nat → Nat
  visited : Nat → Nat
  trav_id : Nat

/-- The state right after `cell_window` construction. -/
def initWin (ntk : CellNtk) : WinSt :=
  { nodes := [], gates := [], leaves := [], roots := []
    cell_refs := init_cell_refs ntk
    visited := fun _ => 0
    trav_id := 0 }

/-- Insertion into a hash-set represented as a duplicate-free list. -/
def setInsert (l : List Nat) (x : Nat) : List Nat :=
  if x ∈ l then l else l ++ [x]

/-- One deref pass: `for n in _nodes: foreach_cell_fanin(n): _cell_refs[m]--`. -/
def derefAll (ntk : CellNtk) (nodes : List Nat) (refs : Nat → Nat) : Nat → Nat :=
  nodes.foldl
    (fun r n => (ntk.cell_fanin n).foldl (fun r2 m => updFn r2 m (dec32 (r2 m))) r)
    refs

/-- One reref pass: same iteration with `_cell_refs[m]++` (used by
`find_leaves_and_roots`). -/
def rerefAll (ntk : CellNtk) (nodes : List Nat) (refs : Nat → Nat) : Nat → Nat :=
  nodes.foldl
    (fun r n => (ntk.cell_fanin n).foldl (fun r2 m => updFn r2 m (inc32 (r2 m))) r)
    refs

/-- `cell_window::collect_gates_rec` (lines 186-198): depth-first post-order
collection bounded by traversal marks.  Structural fuel caps the recursion
depth; any fuel at least the number of distinct nodes reproduces the C++
(which terminates because every recursive call first marks its node). -/
def collect_gates_rec (ntk : CellNtk) (tid : Nat) :
    Nat → Nat → (Nat → Nat) → List Nat → ((Nat → Nat) × List Nat)
  | 0, _, vis, acc => (vis, acc)
  | fuel + 1, n, vis, acc =>
    if vis n = tid then (vis, acc)
    else if ntk.is_constant n || ntk.is_pi n then (vis, acc)
    else
      let vis1 := updFn vis n tid
      let p := (ntk.fanin n).foldl
        (fun (q : (Nat → Nat) × List Nat) m =>
          collect_gates_rec ntk tid fuel m q.1 q.2)
        (vis1, acc)
      (p.1, p.2 ++ [n])

/-- `cell_window::collect_gates` (lines 172-184): mark the two constants and
the pivot's cell-fanin frontier with the current traversal id, then recurse
from the pivot. -/
def collect_gates (ntk : CellNtk) (dfsFuel : Nat) (pivot : Nat)
    (vis : Nat → Nat) (tid : Nat) : (Nat → Nat) × List Nat :=
  let vis1 := updFn (updFn vis ntk.const_false tid) ntk.const_true tid
  let vis2 := (ntk.cell_fanin pivot).foldl (fun v m => updFn v m tid) vis1
  collect_gates_rec ntk tid dfsFuel pivot vis2 []

/-- `cell_window::collect_mffc` (lines 164-170): advance the traversal id,
collect, and drop the gates already present in `_gates`. -/
def collect_mffc (ntk : CellNtk) (dfsFuel : Nat) (st : WinSt) (pivot : Nat) :
    WinSt × List Nat :=
  let tid := st.trav_id + 1
  let p := collect_gates ntk dfsFuel pivot st.visited tid
  ({ st with visited := p.1, trav_id := tid },
   p.2.filter (fun g => !(st.gates.contains g)))

/-- `cell_window::add_node` (lines 200-204). -/
def add_node (st : WinSt) (pivot : Nat) (gs : List Nat) : WinSt :=
  { st with nodes := setInsert st.nodes pivot
            gates := gs.foldl setInsert st.gates }

/-- Step B1 of `find_next_pivot`: cell-fanins of window nodes that are not in
the window, not PIs, and have residual ref count 0; pushed to `candidates`
and inserted into `inputs` alike. -/
def fnpPhase1 (ntk : CellNtk) (nodes : List Nat) (refs1 : Nat → Nat) : List Nat :=
  nodes.foldl
    (fun acc n => acc ++ (ntk.cell_fanin n).filter
      (fun m => !(nodes.contains m) && !(ntk.is_pi m) && refs1 m == 0))
    []

/-- Step B2 part (i) of `find_next_pivot`: all out-of-window non-PI
cell-fanins of window nodes. -/
def fnpPhase2 (ntk : CellNtk) (nodes : List Nat) : List Nat :=
  nodes.foldl
    (fun acc n => acc ++ (ntk.cell_fanin n).filter
      (fun m => !(nodes.contains m) && !(ntk.is_pi m)))
    []

/-- Step B2 part (ii) of `find_next_pivot`, the parent scan (lines 259-276):
skip nodes with residual count 0 or ≥ 5; if a node has residual count 1 and a
unique parent outside the window, the candidate list is replaced by that
parent and the scan stops (`candidates.clear(); push_back; break`); otherwise
append all out-of-window parents. -/
def fnpParentScan (ntk : CellNtk) (nodesAll : List Nat) (refs1 : Nat → Nat) :
    List Nat → List Nat → List Nat
  | [], acc => acc
  | n :: rest, acc =>
    if refs1 n == 0 then fnpParentScan ntk nodesAll refs1 rest acc
    else if refs1 n ≥ 5 then fnpParentScan ntk nodesAll refs1 rest acc
    else if refs1 n == 1 && (cell_parents ntk n).length == 1
            && !(nodesAll.contains ((cell_parents ntk n).headD 0)) then
      [(cell_parents ntk n).headD 0]
    else
      fnpParentScan ntk nodesAll refs1 rest
        (acc ++ (cell_parents ntk n).filter (fun g => !(nodesAll.contains g)))

/-- The tie-break score: how many cell-fanins of `cand` are already in the
accumulated `inputs` set. -/
def faninInputScore (ntk : CellNtk) (inputs : List Nat) (cand : Nat) : Nat :=
  (ntk.cell_fanin cand).foldl
    (fun c m => c + (if inputs.contains m then 1 else 0)) 0

/-- Modelled from the spec: `max_element_unary` lives in
`utils/algorithm.hpp`, which is not among the source files.  Per the spec
(§4.1), the candidate maximising the score wins, ties broken by first
occurrence; the `-1` initial value means a first candidate always wins over
the initial value.  Tail of the selection loop. -/
def bestCandGo (ntk : CellNtk) (inputs : List Nat) :
    List Nat → Nat → Nat → Nat
  | [], best, _ => best
  | c :: cs, best, bestScore =>
    if faninInputScore ntk inputs c > bestScore then
      bestCandGo ntk inputs cs c (faninInputScore ntk inputs c)
    else bestCandGo ntk inputs cs best bestScore

/-- Modelled from the spec: first-occurrence-wins maximisation over a
candidate list (`max_element_unary` with initial value `-1`); `none` on an
empty list. -/
def bestCand (ntk : CellNtk) (inputs : List Nat) : List Nat → Option Nat
  | [] => none
  | c :: cs => some (bestCandGo ntk inputs cs c (faninInputScore ntk inputs c))

/-- `cell_window::find_next_pivot` (lines 206-310).  First pass: decrement
`cell_refs` along all in-window cell-fanin edges.  Candidate collection as in
steps B1/B2.  Second pass (lines 294-300): the source decrements the same
counters AGAIN (both passes are written `_cell_refs[n2]--`), instead of
restoring them.  Returns `candidates.front()` (or `none`) and the resulting
ref-count map. -/
def find_next_pivot (ntk : CellNtk) (st : WinSt) : Option Nat × (Nat → Nat) :=
  let refs1 := derefAll ntk st.nodes st.cell_refs
  let cands :=
    let c1 := fnpPhase1 ntk st.nodes refs1
    match bestCand ntk c1 c1 with
    | some b => b :: c1.tail
    | none =>
      let c2 := fnpPhase2 ntk st.nodes
      let c3 := fnpParentScan ntk st.nodes refs1 st.nodes c2
      match bestCand ntk c2 c3 with
      | some b => b :: c3.tail
      | none => []
  let refs2 := derefAll ntk st.nodes refs1
  (cands.head?, refs2)

/-- The leaves accumulation inner loop of `find_leaves_and_roots`: for each
fanin of a gate, insert it into `_leaves` unless it is in `_gates`. -/
def leavesInner (gates : List Nat) (fs : List Nat) (acc : List Nat) : List Nat :=
  fs.foldl (fun a f => if gates.contains f then a else setInsert a f) acc

/-- The leaves of a window: all out-of-window fanins of window gates. -/
def leavesOf (ntk : CellNtk) (gates : List Nat) : List Nat :=
  gates.foldl (fun acc g => leavesInner gates (ntk.fanin g) acc) []

/-- `cell_window::find_leaves_and_roots` (lines 312-346): compute `_leaves`;
deref, keep as `_roots` the window nodes with non-zero residual count, then
reref to restore. -/
def find_leaves_and_roots (ntk : CellNtk) (st : WinSt) : WinSt :=
  let leaves := leavesOf ntk st.gates
  let refs1 := derefAll ntk st.nodes st.cell_refs
  let roots := st.nodes.filter (fun n => refs1 n != 0)
  let refs2 := rerefAll ntk st.nodes refs1
  { st with leaves := leaves, roots := roots, cell_refs := refs2 }

/-- The growth loop of `compute_window_for` (lines 99-110): while
`find_next_pivot` yields a pivot, collect its MFFC; stop if adding it would
exceed `max_gates`, otherwise add and continue.  Structural fuel bounds the
iteration count; the C++ loop terminates because every accepted pivot is
outside `_nodes` and `_nodes` only grows. -/
def growLoop (ntk : CellNtk) (maxGates dfsFuel : Nat) : Nat → WinSt → WinSt
  | 0, st => st
  | fuel + 1, st =>
    match find_next_pivot ntk st with
    | (none, refs2) => { st with cell_refs := refs2 }
    | (some nxt, refs2) =>
      let st1 := { st with cell_refs := refs2 }
      let p := collect_mffc ntk dfsFuel st1 nxt
      if p.1.gates.length + p.2.length > maxGates then p.1
      else growLoop ntk maxGates dfsFuel fuel (add_node p.1 nxt p.2)

/-- `cell_window::compute_window_for` (lines 80-113):
`assert( is_cell_root( pivot ) )`; reset `_nodes`/`_gates`; collect the
pivot's MFFC and add it (`assert( false )` if it already exceeds
`_max_gates`); grow; then compute leaves and roots. -/
def compute_window_for (ntk : CellNtk) (maxGates loopFuel dfsFuel : Nat)
    (st : WinSt) (pivot : Nat) : Option WinSt :=
  if ntk.is_cell_root pivot then
    let st0 := { st with nodes := [], gates := [] }
    let p := collect_mffc ntk dfsFuel st0 pivot
    let st2 := add_node p.1 pivot p.2
    if p.2.length > maxGates then none
    else some (find_leaves_and_roots ntk (growLoop ntk maxGates dfsFuel loopFuel st2))
  else none

/-! ### Concrete example instances -/

/-- A minimal mapped network: node 0 the shared constant, node 1 a PI, node 2
a cell-root gate whose (cell-)fanin is the PI and which drives the only PO. -/
def exCellNtk : CellNtk :=
  { const_false := 0
    const_true := 0
    is_pi := fun n => n == 1
    is_constant := fun n => n == 0
    is_cell_root := fun n => n == 2
    gateList := [2]
    poList := [2]
    fanin := fun n => if n == 2 then [1] else []
    cell_fanin := fun n => if n == 2 then [1] else [] }

/-- The window computed for pivot 2 on `exCellNtk`. -/
def exWinResult : WinSt :=
  (compute_window_for exCellNtk 128 4 4 (initWin exCellNtk) 2).getD (initWin exCellNtk)

/-- An `abc_index_list` built by the public API: 2 PIs, one AND, one PO. -/
def exAbcBuilt : abc_index_list :=
  (abcRun 2 [.andGate 2 4, .output 6]).getD (abc_index_list.new 0)

/-- A `xag_index_list` built by the public API: 2 PIs, one AND, one PO. -/
def exXagBuilt : xag_index_list :=
  (xagRun 2 [.andGate 2 4, .output 6]).getD (xag_index_list.new 0)

/-- A `mig_index_list` built by the public API: 3 PIs, one MAJ, one PO. -/
def exMigBuilt : mig_index_list :=
  (migRun 3 [.majGate 2 4 6, .output 8]).getD (mig_index_list.new 0)

/-! ### Theorems -/

/-- C1: the claim states that `find_next_pivot` reverses its Step A
decrements, so that after any `compute_window_for` call `cell_refs` equals
its post-construction value.  The code instead decrements a second time
(lines 294-300 repeat the `--` loop), so on `exCellNtk` the ref count of the
PI (node 1, initially 1) ends at `2^32 - 1` after the window computation for
pivot 2, refuting the claim at this input. -/
theorem C1_compute_window_corrupts_cell_refs :
    (compute_window_for exCellNtk 128 4 4 (initWin exCellNtk) 2).map
        (fun s => s.cell_refs 1) = some 4294967295 ∧
    (initWin exCellNtk).cell_refs 1 = 1 := by
  exact ⟨rfl, rfl⟩

/-- C2: the claim states that `decode (encode N)` is functionally equivalent
to `N` for every supported network.  For the `abc` variant with the 1-PI
network whose two POs are `x1` and `¬x1` (literals 2 and 3), encoding yields
`{0,1,0,0,2,2,3,3}`, but decoding that list yields POs `¬x1, ¬x1` (because
`foreach_po` reads only the last `num_pos` raw entries of the doubled PO
tail), and the first PO computes `¬x1` instead of `x1`. -/
theorem C2_abc_decode_encode_not_equivalent :
    abc_encode (abc_index_list.new 0) { num_pis := 1, gates := [], pos := [2, 3] } =
      some { num_pis := 1, num_pos := 2, values := [0, 1, 0, 0, 2, 2, 3, 3] } ∧
    abc_decode { num_pis := 1, num_pos := 2, values := [0, 1, 0, 0, 2, 2, 3, 3] } =
      some { num_pis := 1, gates := [], pos := [3, 3] } ∧
    XagNtk.poVals { num_pis := 1, gates := [], pos := [2, 3] } [true] = [true, false] ∧
    XagNtk.poVals { num_pis := 1, gates := [], pos := [3, 3] } [true] = [false, false] := by
  refine ⟨rfl, rfl, rfl, rfl⟩

/-- C3: the claim states `encode (decode L)` reproduces `L.raw()` byte for
byte for every structurally valid list.  The structurally valid `abc` list
`{0,1,0,0,2,2,3,3}` (1 PI, no gates, POs 2 and 3) decodes to POs `3, 3`
(again the `foreach_po` slip), and re-encoding gives `{0,1,0,0,3,3,3,3}`. -/
theorem C3_abc_round_trip_fails :
    abc_decode (abc_index_list.from_raw [0, 1, 0, 0, 2, 2, 3, 3]) =
      some { num_pis := 1, gates := [], pos := [3, 3] } ∧
    (abc_decode (abc_index_list.from_raw [0, 1, 0, 0, 2, 2, 3, 3])).bind
        (abc_encode (abc_index_list.new 0)) =
      some { num_pis := 1, num_pos := 2, values := [0, 1, 0, 0, 3, 3, 3, 3] } ∧
    ([0, 1, 0, 0, 3, 3, 3, 3] : List Nat) ≠
      (abc_index_list.from_raw [0, 1, 0, 0, 2, 2, 3, 3]).values := by
  refine ⟨rfl, rfl, by decide⟩

/-- C4: the claim states `foreach_po` passes `l1, …, lk` in insertion order.
After `add_output 2; add_output 4` the raw tail is `2, 2, 4, 4`, but the
`foreach_po` loop starts at `values.size() - _num_pos` with stride 1, so it
yields `4, 4` instead of `2, 4`. -/
theorem C4_foreach_po_wrong_literals :
    ((abc_index_list.new 0).add_output 2).add_output 4 =
      { num_pis := 0, num_pos := 2, values := [0, 1, 2, 2, 4, 4] } ∧
    (((abc_index_list.new 0).add_output 2).add_output 4).pos = [4, 4] ∧
    ([4, 4] : List Nat) ≠ [2, 4] := by
  refine ⟨rfl, rfl, by decide⟩

/-- C8 counterexample: the claim states that in the `xag` variant, too,
mis-ordered literals in `add_and` are rejected by an assertion.  But
`xag_index_list::add_and` checks only the gate-count overflow, so
`add_and 4 2` on a fresh 2-PI list succeeds and appends `4, 2`. -/
theorem C8_xag_add_and_unordered_accepted :
    xag_index_list.add_and (xag_index_list.new 2) 4 2 =
      some { values := [65538, 4, 2] } := by
  decide

/-- C8 (amended): only the `abc` variant asserts literal ordering
(`add_and` requires `lit0 < lit1`, `add_xor` requires `lit0 > lit1`); the
`xag` variant's `add_and`/`add_xor` perform no ordering check and append the
literals as given (only gate-count overflow is asserted). -/
theorem C8_amended_only_abc_asserts_order
    (l : abc_index_list) (lx : xag_index_list) (a b hd : Nat) (tl : List Nat)
    (hv : lx.values = hd :: tl) (hg : lx.num_gates + 1 ≤ 65535) :
    (b ≤ a → l.add_and a b = none ∧
      (lx.add_and a b).map (fun l2 => l2.values.drop lx.values.length) = some [a, b]) ∧
    (a ≤ b → l.add_xor a b = none ∧
      (lx.add_xor a b).map (fun l2 => l2.values.drop lx.values.length) = some [a, b]) := by
  have hdrop : ∀ x : Nat,
      (x :: (lx.values.tail ++ [a, b])).drop lx.values.length = [a, b] := by
    intro x
    rw [hv]
    simp [List.drop_left tl [a, b]]
  constructor
  · intro hba
    refine ⟨?_, ?_⟩
    · simp [abc_index_list.add_and, Nat.not_lt.mpr hba]
    · simp only [xag_index_list.add_and, if_pos hg, Option.map_some']
      rw [hdrop]
  · intro hab
    refine ⟨?_, ?_⟩
    · simp [abc_index_list.add_xor, Nat.not_lt.mpr hab]
    · simp only [xag_index_list.add_xor, if_pos hg, Option.map_some']
      rw [hdrop]

/-- C8 amended witness at `a = 4, b = 2` on fresh lists. -/
theorem C8_amended_witness :
    (abc_index_list.new 0).add_and 4 2 = none ∧
    ((xag_index_list.new 2).add_and 4 2).map
        (fun l2 => l2.values.drop (xag_index_list.new 2).values.length) =
      some [4, 2] :=
  (C8_amended_only_abc_asserts_order (abc_index_list.new 0) (xag_index_list.new 2)
      4 2 2 [] rfl (by decide)).1 (by decide)

/-- C6: for distinct gate-entry literals, the discriminator is sound and
complete in both directions and in both variants: the `insert` step creates
an AND node iff `lit0 < lit1` and an XOR node iff `lit0 > lit1`; and the
`abc` builders accept `add_and` iff `lit0 < lit1`, `add_xor` iff
`lit0 > lit1` (so API-built `abc` gate entries always have
`lit0 ≠ lit1`). -/
theorem C6_insert_discriminator
    (a b s0 s1 : Nat) (h hx : XagNtk) (l : abc_index_list) (hne : a ≠ b) :
    ((abcInsertStep h s0 s1 a b).1.gates = h.gates ++ [(false, s0, s1)] ↔ a < b) ∧
    ((abcInsertStep h s0 s1 a b).1.gates = h.gates ++ [(true, s0, s1)] ↔ b < a) ∧
    ((xagInsertStep hx s0 s1 a b).1.gates = hx.gates ++ [(false, s0, s1)] ↔ a < b) ∧
    ((xagInsertStep hx s0 s1 a b).1.gates = hx.gates ++ [(true, s0, s1)] ↔ b < a) ∧
    ((l.add_and a b).isSome ↔ a < b) ∧
    ((l.add_xor a b).isSome ↔ b < a) := by
  rcases Nat.lt_trichotomy a b with hab | hab | hab
  · have hba : ¬ b < a := by omega
    simp [abcInsertStep, xagInsertStep, XagNtk.create_and, XagNtk.create_xor,
      abc_index_list.add_and, abc_index_list.add_xor, hab, hba, Nat.lt_asymm hab]
  · exact absurd hab hne
  · have hba : ¬ a < b := by omega
    simp [abcInsertStep, xagInsertStep, XagNtk.create_and, XagNtk.create_xor,
      abc_index_list.add_and, abc_index_list.add_xor, hab, hba]

/-- C6 witness: on concrete entries `(2, 4)` (AND) and `(4, 2)` (XOR). -/
theorem C6_witness :
    ((abcInsertStep { num_pis := 1, gates := [], pos := [] } 2 5 2 4).1.gates
        = [] ++ [(false, 2, 5)]) ∧
    ((xagInsertStep { num_pis := 1, gates := [], pos := [] } 2 5 4 2).1.gates
        = [] ++ [(true, 2, 5)]) :=
  ⟨(C6_insert_discriminator 2 4 2 5 { num_pis := 1, gates := [], pos := [] }
      { num_pis := 1, gates := [], pos := [] } (abc_index_list.new 0)
      (by decide)).1.mpr (by decide),
   (C6_insert_discriminator 4 2 2 5 { num_pis := 1, gates := [], pos := [] }
      { num_pis := 1, gates := [], pos := [] } (abc_index_list.new 0)
      (by decide)).2.2.2.1.mpr (by decide)⟩

/-- C9: the `xag` `insert` checks by assertion that the number of provided
input signals equals `num_pis()`; under that precondition the build-time
signal table handed to the gate loop is `get_constant(false)` followed by
the inputs, i.e. exactly `1 + num_pis` entries with the constant at
index 0. -/
theorem C9_xag_insert_table
    (ntk : XagNtk) (inputs : List Nat) (l : xag_index_list) :
    (inputs.length ≠ l.num_pis → xag_insert ntk inputs l = none) ∧
    (inputs.length = l.num_pis →
      (insertTable inputs).length = 1 + l.num_pis ∧
      (insertTable inputs).get? 0 = some constantFalseLit ∧
      (insertTable inputs).drop 1 = inputs) := by
  constructor
  · intro hne
    simp [xag_insert, hne]
  · intro heq
    refine ⟨?_, rfl, rfl⟩
    simp [insertTable, heq, Nat.add_comm]

/-- C9 witness: a 1-PI list with a single input signal, plus the assertion
firing on a 1-PI list with no input signals. -/
theorem C9_witness :
    (xag_insert { num_pis := 0, gates := [], pos := [] } [] (xag_index_list.new 1)
        = none) ∧
    (insertTable [2]).length = 1 + (xag_index_list.new 1).num_pis ∧
    (insertTable [2]).get? 0 = some constantFalseLit ∧
    (insertTable [2]).drop 1 = [2] :=
  ⟨(C9_xag_insert_table { num_pis := 0, gates := [], pos := [] } []
      (xag_index_list.new 1)).1 (by decide),
   (C9_xag_insert_table { num_pis := 0, gates := [], pos := [] } [2]
      (xag_index_list.new 1)).2 (by decide)⟩

/-- Helper: one `abc` API operation preserves the size decomposition
`|values| = 2·(1 + num_pis + num_pos + g)` for some gate count `g`. -/
lemma abcApply_size {l l' : abc_index_list} {op : AbcOp} {g : Nat}
    (hl : l.values.length = 2 * (1 + l.num_pis + l.num_pos + g))
    (happ : abcApply l op = some l') :
    ∃ g', l'.values.length = 2 * (1 + l'.num_pis + l'.num_pos + g') := by
  cases op with
  | inputs n =>
    refine ⟨g, ?_⟩
    simp only [abcApply, Option.some.injEq] at happ
    subst happ
    simp [abc_index_list.add_inputs, hl]
    omega
  | andGate a b =>
    refine ⟨g + 1, ?_⟩
    simp only [abcApply, abc_index_list.add_and] at happ
    split at happ
    · cases happ
      simp [hl]
      omega
    · cases happ
  | xorGate a b =>
    refine ⟨g + 1, ?_⟩
    simp only [abcApply, abc_index_list.add_xor] at happ
    split at happ
    · cases happ
      simp [hl]
      omega
    · cases happ
  | output x =>
    refine ⟨g, ?_⟩
    simp only [abcApply, Option.some.injEq] at happ
    subst happ
    simp [abc_index_list.add_output, hl]
    omega

/-- Helper: the size decomposition is preserved along any `abc` API run. -/
lemma abcFold_size : ∀ (ops : List AbcOp) (l l' : abc_index_list),
    (∃ g, l.values.length = 2 * (1 + l.num_pis + l.num_pos + g)) →
    List.foldlM abcApply l ops = some l' →
    ∃ g, l'.values.length = 2 * (1 + l'.num_pis + l'.num_pos + g) := by
  intro ops
  induction ops with
  | nil =>
    intro l l' h hfold
    simp only [List.foldlM_nil, Option.pure_def, Option.some.injEq] at hfold
    subst hfold
    exact h
  | cons op rest ih =>
    intro l l' h hfold
    simp only [List.foldlM_cons] at hfold
    cases happ : abcApply l op with
    | none => simp [happ] at hfold
    | some l2 =>
      rw [happ] at hfold
      obtain ⟨g, hg⟩ := h
      exact ih l2 l' (abcApply_size hg happ) hfold

/-- Helper structural invariant for `xag_index_list`: nonempty values, a
32-bit header, and the size law. -/
lemma xagApply_inv {l l' : xag_index_list} {op : XagOp}
    (h1 : l.values ≠ [])
    (h2 : l.header < 4294967296)
    (h3 : l.values.length = 1 + 2 * l.num_gates + l.num_pos)
    (happ : xagApply l op = some l') :
    l'.values ≠ [] ∧ l'.header < 4294967296 ∧
      l'.values.length = 1 + 2 * l'.num_gates + l'.num_pos := by
  rcases l with ⟨vals⟩
  obtain ⟨v, t, rfl⟩ : ∃ v t, vals = v :: t := by
    cases vals with
    | nil => simp at h1
    | cons v t => exact ⟨v, t, rfl⟩
  simp only [xag_index_list.header, List.headD_cons] at h2
  simp only [xag_index_list.num_gates, xag_index_list.num_pos,
    xag_index_list.header, List.headD_cons, List.length_cons] at h3
  cases op with
  | inputs n =>
    simp only [xagApply, xag_index_list.add_inputs, xag_index_list.num_pis,
      xag_index_list.header, List.headD_cons, List.tail_cons] at happ
    split at happ
    · cases happ
      refine ⟨by simp, ?_, ?_⟩
      · simp only [xag_index_list.header, List.headD_cons]
        omega
      · simp only [xag_index_list.num_gates, xag_index_list.num_pos,
          xag_index_list.header, List.headD_cons, List.length_cons]
        omega
    · cases happ
  | andGate a b =>
    simp only [xagApply, xag_index_list.add_and, xag_index_list.num_gates,
      xag_index_list.header, List.headD_cons, List.tail_cons] at happ
    split at happ
    · cases happ
      refine ⟨by simp, ?_, ?_⟩
      · simp only [xag_index_list.header, List.headD_cons]
        omega
      · simp only [xag_index_list.num_gates, xag_index_list.num_pos,
          xag_index_list.header, List.headD_cons, List.length_cons,
          List.length_append]
        simp
        omega
    · cases happ
  | xorGate a b =>
    simp only [xagApply, xag_index_list.add_xor, xag_index_list.num_gates,
      xag_index_list.header, List.headD_cons, List.tail_cons] at happ
    split at happ
    · cases happ
      refine ⟨by simp, ?_, ?_⟩
      · simp only [xag_index_list.header, List.headD_cons]
        omega
      · simp only [xag_index_list.num_gates, xag_index_list.num_pos,
          xag_index_list.header, List.headD_cons, List.length_cons,
          List.length_append]
        simp
        omega
    · cases happ
  | output x =>
    simp only [xagApply, xag_index_list.add_output, xag_index_list.num_pos,
      xag_index_list.header, List.headD_cons, List.tail_cons] at happ
    split at happ
    · cases happ
      refine ⟨by simp, ?_, ?_⟩
      · simp only [xag_index_list.header, List.headD_cons]
        omega
      · simp only [xag_index_list.num_gates, xag_index_list.num_pos,
          xag_index_list.header, List.headD_cons, List.length_cons,
          List.length_append]
        simp
        omega
    · cases happ

/-- Helper: the `xag` invariant is preserved along any API run. -/
lemma xagFold_inv : ∀ (ops : List XagOp) (l l' : xag_index_list),
    l.values ≠ [] → l.header < 4294967296 →
    l.values.length = 1 + 2 * l.num_gates + l.num_pos →
    List.foldlM xagApply l ops = some l' →
    l'.values ≠ [] ∧ l'.header < 4294967296 ∧
      l'.values.length = 1 + 2 * l'.num_gates + l'.num_pos := by
  intro ops
  induction ops with
  | nil =>
    intro l l' h1 h2 h3 hfold
    simp only [List.foldlM_nil, Option.pure_def, Option.some.injEq] at hfold
    subst hfold
    exact ⟨h1, h2, h3⟩
  | cons op rest ih =>
    intro l l' h1 h2 h3 hfold
    simp only [List.foldlM_cons] at hfold
    cases happ : xagApply l op with
    | none => simp [happ] at hfold
    | some l2 =>
      rw [happ] at hfold
      obtain ⟨g1, g2, g3⟩ := xagApply_inv h1 h2 h3 happ
      exact ih l2 l' g1 g2 g3 hfold

/-- Helper structural invariant for `mig_index_list`. -/
lemma migApply_inv {l l' : mig_index_list} {op : MigOp}
    (h1 : l.values ≠ [])
    (h2 : l.header < 4294967296)
    (h3 : l.values.length = 1 + 3 * l.num_gates + l.num_pos)
    (happ : migApply l op = some l') :
    l'.values ≠ [] ∧ l'.header < 4294967296 ∧
      l'.values.length = 1 + 3 * l'.num_gates + l'.num_pos := by
  rcases l with ⟨vals⟩
  obtain ⟨v, t, rfl⟩ : ∃ v t, vals = v :: t := by
    cases vals with
    | nil => simp at h1
    | cons v t => exact ⟨v, t, rfl⟩
  simp only [mig_index_list.header, List.headD_cons] at h2
  simp only [mig_index_list.num_gates, mig_index_list.num_pos,
    mig_index_list.header, List.headD_cons, List.length_cons] at h3
  cases op with
  | inputs n =>
    simp only [migApply, mig_index_list.add_inputs, mig_index_list.num_pis,
      mig_index_list.header, List.headD_cons, List.tail_cons] at happ
    split at happ
    · cases happ
      refine ⟨by simp, ?_, ?_⟩
      · simp only [mig_index_list.header, List.headD_cons]
        omega
      · simp only [mig_index_list.num_gates, mig_index_list.num_pos,
          mig_index_list.header, List.headD_cons, List.length_cons]
        omega
    · cases happ
  | majGate a b c =>
    simp only [migApply, mig_index_list.add_maj, mig_index_list.num_gates,
      mig_index_list.header, List.headD_cons, List.tail_cons] at happ
    split at happ
    · cases happ
      refine ⟨by simp, ?_, ?_⟩
      · simp only [mig_index_list.header, List.headD_cons]
        omega
      · simp only [mig_index_list.num_gates, mig_index_list.num_pos,
          mig_index_list.header, List.headD_cons, List.length_cons,
          List.length_append]
        simp
        omega
    · cases happ
  | output x =>
    simp only [migApply, mig_index_list.add_output, mig_index_list.num_pos,
      mig_index_list.header, List.headD_cons, List.tail_cons] at happ
    split at happ
    · cases happ
      refine ⟨by simp, ?_, ?_⟩
      · simp only [mig_index_list.header, List.headD_cons]
        omega
      · simp only [mig_index_list.num_gates, mig_index_list.num_pos,
          mig_index_list.header, List.headD_cons, List.length_cons,
          List.length_append]
        simp
        omega
    · cases happ

/-- Helper: the `mig` invariant is preserved along any API run. -/
lemma migFold_inv : ∀ (ops : List MigOp) (l l' : mig_index_list),
    l.values ≠ [] → l.header < 4294967296 →
    l.values.length = 1 + 3 * l.num_gates + l.num_pos →
    List.foldlM migApply l ops = some l' →
    l'.values ≠ [] ∧ l'.header < 4294967296 ∧
      l'.values.length = 1 + 3 * l'.num_gates + l'.num_pos := by
  intro ops
  induction ops with
  | nil =>
    intro l l' h1 h2 h3 hfold
    simp only [List.foldlM_nil, Option.pure_def, Option.some.injEq] at hfold
    subst hfold
    exact ⟨h1, h2, h3⟩
  | cons op rest ih =>
    intro l l' h1 h2 h3 hfold
    simp only [List.foldlM_cons] at hfold
    cases happ : migApply l op with
    | none => simp [happ] at hfold
    | some l2 =>
      rw [happ] at hfold
      obtain ⟨g1, g2, g3⟩ := migApply_inv h1 h2 h3 happ
      exact ih l2 l' g1 g2 g3 hfold

/-- C7: the size laws.  Any list built through the public API (any operation
sequence from a fresh list) satisfies its variant's closed-form size law:
`abc.size = 2·(1 + num_pis + num_gates + num_pos)`,
`xag.size = 1 + 2·num_gates + num_pos`,
`mig.size = 1 + 3·num_gates + num_pos`
(for the packed variants the fresh list's PI count must fit the 8-bit header
field, as in the source's `values( {num_pis} )`). -/
theorem C7_size_laws (npisA npisX npisM : Nat) (opsA : List AbcOp)
    (opsX : List XagOp) (opsM : List MigOp)
    (la : abc_index_list) (lx : xag_index_list) (lm : mig_index_list) :
    (abcRun npisA opsA = some la →
      la.size = 2 * (1 + la.num_pis + la.num_gates + la.num_pos)) ∧
    (npisX ≤ 255 → xagRun npisX opsX = some lx →
      lx.size = 1 + 2 * lx.num_gates + lx.num_pos) ∧
    (npisM ≤ 255 → migRun npisM opsM = some lm →
      lm.size = 1 + 3 * lm.num_gates + lm.num_pos) := by
  refine ⟨?_, ?_, ?_⟩
  · intro hrun
    have hbase : ∃ g, (abc_index_list.new npisA).values.length =
        2 * (1 + (abc_index_list.new npisA).num_pis +
          (abc_index_list.new npisA).num_pos + g) := by
      refine ⟨0, ?_⟩
      simp [abc_index_list.new]
      omega
    obtain ⟨g, hg⟩ := abcFold_size opsA _ la hbase hrun
    have : la.num_gates = g := by
      simp [abc_index_list.num_gates, hg]
      omega
    simp [abc_index_list.size, hg, this]
    omega
  · intro hnp hrun
    have h := xagFold_inv opsX _ lx (by simp [xag_index_list.new])
      (by simp [xag_index_list.new, xag_index_list.header]; omega)
      (by simp [xag_index_list.new, xag_index_list.header,
            xag_index_list.num_gates, xag_index_list.num_pos]
          omega)
      hrun
    simpa [xag_index_list.size] using h.2.2
  · intro hnp hrun
    have h := migFold_inv opsM _ lm (by simp [mig_index_list.new])
      (by simp [mig_index_list.new, mig_index_list.header]; omega)
      (by simp [mig_index_list.new, mig_index_list.header,
            mig_index_list.num_gates, mig_index_list.num_pos]
          omega)
      hrun
    simpa [mig_index_list.size] using h.2.2

/-- C7 witness: concrete 1-gate, 1-PO builds in each variant. -/
theorem C7_witness :
    exAbcBuilt.size = 2 * (1 + exAbcBuilt.num_pis + exAbcBuilt.num_gates +
      exAbcBuilt.num_pos) ∧
    exXagBuilt.size = 1 + 2 * exXagBuilt.num_gates + exXagBuilt.num_pos ∧
    exMigBuilt.size = 1 + 3 * exMigBuilt.num_gates + exMigBuilt.num_pos :=
  ⟨(C7_size_laws 2 2 3 [.andGate 2 4, .output 6] [.andGate 2 4, .output 6]
      [.majGate 2 4 6, .output 8] exAbcBuilt (xag_index_list.new 0)
      (mig_index_list.new 0)).1 rfl,
   (C7_size_laws 2 2 3 [.andGate 2 4, .output 6] [.andGate 2 4, .output 6]
      [.majGate 2 4 6, .output 8] (abc_index_list.new 0) exXagBuilt
      (mig_index_list.new 0)).2.1 (by decide) rfl,
   (C7_size_laws 2 2 3 [.andGate 2 4, .output 6] [.andGate 2 4, .output 6]
      [.majGate 2 4 6, .output 8] (abc_index_list.new 0) (xag_index_list.new 0)
      exMigBuilt).2.2 (by decide) rfl⟩

/-- Helper: literal resolution succeeds exactly when the literal's index is
within the signal table. -/
lemma resolveLit_isSome (signals : List Nat) (lit : Nat) :
    (resolveLit signals lit).isSome = litOk signals.length lit := by
  unfold resolveLit litOk
  cases hg : signals.get? (lit / 2) with
  | none =>
    have := List.get?_eq_none.mp hg
    simp [Nat.not_lt.mpr this]
  | some s =>
    have : lit / 2 < signals.length := by
      by_contra hfalse
      rw [List.get?_eq_none.mpr (Nat.not_lt.mp hfalse)] at hg
      cases hg
    simp [this]

/-- Helper: the pair-insert loop succeeds exactly when every entry is
distinct and resolvable against the growing signal table. -/
lemma pairInsertLoop_isSome (step : XagNtk → Nat → Nat → Nat → Nat → XagNtk × Nat) :
    ∀ (entries : List (Nat × Nat)) (ntk : XagNtk) (signals : List Nat),
      (pairInsertLoop step entries ntk signals).isSome =
        pairEntriesOk signals.length entries := by
  intro entries
  induction entries with
  | nil => intro ntk signals; rfl
  | cons e rest ih =>
    intro ntk signals
    obtain ⟨a, b⟩ := e
    by_cases hab : a = b
    · simp [pairInsertLoop, pairEntriesOk, hab]
    · have ha := resolveLit_isSome signals a
      have hb := resolveLit_isSome signals b
      cases hra : resolveLit signals a with
      | none =>
        rw [hra] at ha
        simp [pairInsertLoop, pairEntriesOk, hab, hra, ← ha]
      | some s0 =>
        rw [hra] at ha
        cases hrb : resolveLit signals b with
        | none =>
          rw [hrb] at hb
          simp [pairInsertLoop, pairEntriesOk, hab, hra, hrb, ← ha, ← hb]
        | some s1 =>
          rw [hrb] at hb
          have := ih (step ntk s0 s1 a b).1 (signals ++ [(step ntk s0 s1 a b).2])
          simp only [List.length_append, List.length_cons, List.length_nil] at this
          simp [pairInsertLoop, pairEntriesOk, hab, hra, hrb, ← ha, ← hb, this]

/-- Helper: on success the signal table grows by one entry per gate. -/
lemma pairInsertLoop_length (step : XagNtk → Nat → Nat → Nat → Nat → XagNtk × Nat) :
    ∀ (entries : List (Nat × Nat)) (ntk : XagNtk) (signals : List Nat)
      (ntk' : XagNtk) (signals' : List Nat),
      pairInsertLoop step entries ntk signals = some (ntk', signals') →
      signals'.length = signals.length + entries.length := by
  intro entries
  induction entries with
  | nil =>
    intro ntk signals ntk' signals' h
    simp only [pairInsertLoop, Option.some.injEq, Prod.mk.injEq] at h
    obtain ⟨-, rfl⟩ := h
    simp
  | cons e rest ih =>
    intro ntk signals ntk' signals' h
    obtain ⟨a, b⟩ := e
    by_cases hab : a = b
    · simp [pairInsertLoop, hab] at h
    · simp only [pairInsertLoop, if_neg hab] at h
      cases hra : resolveLit signals a with
      | none => rw [hra] at h; cases h
      | some s0 =>
        rw [hra] at h
        cases hrb : resolveLit signals b with
        | none => rw [hrb] at h; cases h
        | some s1 =>
          rw [hrb] at h
          have := ih _ _ _ _ h
          simp only [List.length_append, List.length_cons, List.length_nil] at this
          simp only [List.length_cons]
          omega

/-- Helper: PO resolution succeeds exactly when every PO literal is
resolvable. -/
lemma poResolve_isSome (signals : List Nat) :
    ∀ ps : List Nat,
      (poResolve signals ps).isSome = poLitsOk signals.length ps := by
  intro ps
  induction ps with
  | nil => rfl
  | cons p rest ih =>
    have hp := resolveLit_isSome signals p
    cases hrp : resolveLit signals p with
    | none =>
      rw [hrp] at hp
      simp [poResolve, poLitsOk, hrp, ← hp]
    | some s =>
      rw [hrp] at hp
      cases hrest : poResolve signals rest with
      | none =>
        rw [hrest] at ih
        simp [poResolve, poLitsOk, hrp, hrest, ← hp, ← ih]
      | some ss =>
        rw [hrest] at ih
        simp [poResolve, poLitsOk, hrp, hrest, ← hp, ← ih]

/-- Helper: the triple-insert loop succeeds exactly when every entry is
resolvable against the growing signal table. -/
lemma migInsertLoop_isSome :
    ∀ (entries : List (Nat × Nat × Nat)) (ntk : MigNtk) (signals : List Nat),
      (migInsertLoop entries ntk signals).isSome =
        trioEntriesOk signals.length entries := by
  intro entries
  induction entries with
  | nil => intro ntk signals; rfl
  | cons e rest ih =>
    intro ntk signals
    obtain ⟨a, b, c⟩ := e
    have ha := resolveLit_isSome signals a
    have hb := resolveLit_isSome signals b
    have hc := resolveLit_isSome signals c
    cases hra : resolveLit signals a with
    | none =>
      rw [hra] at ha
      simp [migInsertLoop, trioEntriesOk, hra, ← ha]
    | some s0 =>
      rw [hra] at ha
      cases hrb : resolveLit signals b with
      | none =>
        rw [hrb] at hb
        simp [migInsertLoop, trioEntriesOk, hra, hrb, ← ha, ← hb]
      | some s1 =>
        rw [hrb] at hb
        cases hrc : resolveLit signals c with
        | none =>
          rw [hrc] at hc
          simp [migInsertLoop, trioEntriesOk, hra, hrb, hrc, ← ha, ← hb, ← hc]
        | some s2 =>
          rw [hrc] at hc
          have := ih (ntk.create_maj s0 s1 s2).1
            (signals ++ [(ntk.create_maj s0 s1 s2).2])
          simp only [List.length_append, List.length_cons, List.length_nil] at this
          simp [migInsertLoop, trioEntriesOk, hra, hrb, hrc, ← ha, ← hb, ← hc, this]

/-- Helper: on success the `mig` signal table grows by one per gate. -/
lemma migInsertLoop_length :
    ∀ (entries : List (Nat × Nat × Nat)) (ntk : MigNtk) (signals : List Nat)
      (ntk' : MigNtk) (signals' : List Nat),
      migInsertLoop entries ntk signals = some (ntk', signals') →
      signals'.length = signals.length + entries.length := by
  intro entries
  induction entries with
  | nil =>
    intro ntk signals ntk' signals' h
    cases h
    simp
  | cons e rest ih =>
    intro ntk signals ntk' signals' h
    obtain ⟨a, b, c⟩ := e
    simp only [migInsertLoop] at h
    cases hra : resolveLit signals a with
    | none => rw [hra] at h; cases h
    | some s0 =>
      rw [hra] at h
      cases hrb : resolveLit signals b with
      | none => rw [hrb] at h; cases h
      | some s1 =>
        rw [hrb] at h
        cases hrc : resolveLit signals c with
        | none => rw [hrc] at h; cases h
        | some s2 =>
          rw [hrc] at h
          have := ih _ _ _ _ h
          simp only [List.length_append, List.length_cons, List.length_nil] at this
          simp only [List.length_cons]
          omega

/-- C10: in all three `insert` functions every literal is resolved through a
bounds-checked table access, so `insert` completes exactly when every gate
and PO literal references an already-defined signal (and, for `abc`/`xag`,
the entry literals are distinct, and for `xag` the input count matches the
header); a list violating the topological-order invariant makes `insert`
fail instead of creating a gate from an invalid signal. -/
theorem C10_insert_bounds_checked (ntkA ntkX : XagNtk) (ntkM : MigNtk)
    (inputs : List Nat) (la : abc_index_list) (lx : xag_index_list)
    (lm : mig_index_list) :
    ((abc_insert ntkA inputs la).isSome =
      (pairEntriesOk (inputs.length + 1) la.entries &&
        poLitsOk (inputs.length + 1 + la.entries.length) la.pos)) ∧
    ((xag_insert ntkX inputs lx).isSome =
      (decide (inputs.length = lx.num_pis) &&
        pairEntriesOk (inputs.length + 1) lx.entries &&
        poLitsOk (inputs.length + 1 + lx.entries.length) lx.pos)) ∧
    ((mig_insert ntkM inputs lm).isSome =
      (trioEntriesOk (inputs.length + 1) lm.entries &&
        poLitsOk (inputs.length + 1 + lm.entries.length) lm.pos)) := by
  have htbl : (insertTable inputs).length = inputs.length + 1 := by
    simp [insertTable]
  refine ⟨?_, ?_, ?_⟩
  · have hloop := pairInsertLoop_isSome abcInsertStep la.entries ntkA (insertTable inputs)
    rw [htbl] at hloop
    unfold abc_insert
    cases hres : pairInsertLoop abcInsertStep la.entries ntkA (insertTable inputs) with
    | none =>
      rw [hres] at hloop
      simp only [Option.isSome_none] at hloop
      simp [← hloop]
    | some p =>
      rw [hres] at hloop
      simp only [Option.isSome_some] at hloop
      obtain ⟨ntk', signals'⟩ := p
      have hlen := pairInsertLoop_length abcInsertStep la.entries ntkA
        (insertTable inputs) ntk' signals' hres
      rw [htbl] at hlen
      have hpo := poResolve_isSome signals' la.pos
      rw [hlen] at hpo
      cases hpres : poResolve signals' la.pos with
      | none =>
        rw [hpres] at hpo
        simp only [Option.isSome_none] at hpo
        simp [hpres, ← hloop, ← hpo]
      | some ps =>
        rw [hpres] at hpo
        simp only [Option.isSome_some] at hpo
        simp [hpres, ← hloop, ← hpo]
  · by_cases hpis : inputs.length = lx.num_pis
    · have hloop := pairInsertLoop_isSome xagInsertStep lx.entries ntkX (insertTable inputs)
      rw [htbl] at hloop
      unfold xag_insert
      rw [if_pos hpis]
      rw [hpis] at hloop
      cases hres : pairInsertLoop xagInsertStep lx.entries ntkX (insertTable inputs) with
      | none =>
        rw [hres] at hloop
        simp only [Option.isSome_none] at hloop
        simp [hpis, ← hloop]
      | some p =>
        rw [hres] at hloop
        simp only [Option.isSome_some] at hloop
        obtain ⟨ntk', signals'⟩ := p
        have hlen := pairInsertLoop_length xagInsertStep lx.entries ntkX
          (insertTable inputs) ntk' signals' hres
        rw [htbl] at hlen
        have hpo := poResolve_isSome signals' lx.pos
        rw [hlen, hpis] at hpo
        cases hpres : poResolve signals' lx.pos with
        | none =>
          rw [hpres] at hpo
          simp only [Option.isSome_none] at hpo
          simp [hpres, hpis, ← hloop, ← hpo]
        | some ps =>
          rw [hpres] at hpo
          simp only [Option.isSome_some] at hpo
          simp [hpres, hpis, ← hloop, ← hpo]
    · simp [xag_insert, hpis]
  · have hloop := migInsertLoop_isSome lm.entries ntkM (insertTable inputs)
    rw [htbl] at hloop
    unfold mig_insert
    cases hres : migInsertLoop lm.entries ntkM (insertTable inputs) with
    | none =>
      rw [hres] at hloop
      simp only [Option.isSome_none] at hloop
      simp [← hloop]
    | some p =>
      rw [hres] at hloop
      simp only [Option.isSome_some] at hloop
      obtain ⟨ntk', signals'⟩ := p
      have hlen := migInsertLoop_length lm.entries ntkM
        (insertTable inputs) ntk' signals' hres
      rw [htbl] at hlen
      have hpo := poResolve_isSome signals' lm.pos
      rw [hlen] at hpo
      cases hpres : poResolve signals' lm.pos with
      | none =>
        rw [hpres] at hpo
        simp only [Option.isSome_none] at hpo
        simp [hpres, ← hloop, ← hpo]
      | some ps =>
        rw [hpres] at hpo
        simp only [Option.isSome_some] at hpo
        simp [hpres, ← hloop, ← hpo]

/-- Helper: hash-set insertion grows the set by at most one element. -/
lemma setInsert_length (l : List Nat) (x : Nat) :
    (setInsert l x).length ≤ l.length + 1 := by
  by_cases h : x ∈ l <;> simp [setInsert, h]

/-- Helper: folding hash-set insertions grows the set by at most the number
of inserted elements. -/
lemma foldl_setInsert_length : ∀ (gs l : List Nat),
    (gs.foldl setInsert l).length ≤ l.length + gs.length := by
  intro gs
  induction gs with
  | nil => intro l; simp
  | cons g gs ih =>
    intro l
    simp only [List.foldl_cons, List.length_cons]
    calc ((gs.foldl setInsert (setInsert l g)).length)
        ≤ (setInsert l g).length + gs.length := ih (setInsert l g)
      _ ≤ l.length + 1 + gs.length := by
          have := setInsert_length l g
          omega
      _ = l.length + (gs.length + 1) := by omega

/-- Helper: membership in a hash-set insertion. -/
lemma mem_setInsert {x y : Nat} {l : List Nat} :
    x ∈ setInsert l y ↔ x ∈ l ∨ x = y := by
  by_cases h : y ∈ l
  · simp only [setInsert, if_pos h]
    constructor
    · exact Or.inl
    · rintro (hx | rfl)
      · exact hx
      · exact h
  · simp [setInsert, if_neg h]

/-- Helper: unfolding one step of the leaves inner loop. -/
lemma leavesInner_cons (gates : List Nat) (f : Nat) (fs acc : List Nat) :
    leavesInner gates (f :: fs) acc =
      leavesInner gates fs (if gates.contains f then acc else setInsert acc f) := by
  simp [leavesInner]

/-- Helper: membership in the leaves inner loop. -/
lemma mem_leavesInner (gates : List Nat) :
    ∀ (fs acc : List Nat) (x : Nat),
      x ∈ leavesInner gates fs acc ↔ x ∈ acc ∨ (x ∈ fs ∧ x ∉ gates) := by
  intro fs
  induction fs with
  | nil => intro acc x; simp [leavesInner]
  | cons f fs ih =>
    intro acc x
    rw [leavesInner_cons, ih]
    by_cases hf : f ∈ gates
    · have hc : gates.contains f = true := by simp [List.elem_eq_mem, hf]
      rw [if_pos hc]
      simp only [List.mem_cons]
      constructor
      · rintro (hx | ⟨hxf, hxg⟩)
        · exact Or.inl hx
        · exact Or.inr ⟨Or.inr hxf, hxg⟩
      · rintro (hx | ⟨rfl | hxf, hxg⟩)
        · exact Or.inl hx
        · exact absurd hf hxg
        · exact Or.inr ⟨hxf, hxg⟩
    · rw [if_neg (by simp [List.elem_eq_mem, hf])]
      simp only [List.mem_cons, mem_setInsert]
      constructor
      · rintro ((hx | rfl) | ⟨hxf, hxg⟩)
        · exact Or.inl hx
        · exact Or.inr ⟨Or.inl rfl, hf⟩
        · exact Or.inr ⟨Or.inr hxf, hxg⟩
      · rintro (hx | ⟨rfl | hxf, hxg⟩)
        · exact Or.inl (Or.inl hx)
        · exact Or.inl (Or.inr rfl)
        · exact Or.inr ⟨hxf, hxg⟩

/-- Helper: membership in the leaves outer loop, generalised over the
remaining gate list and accumulator. -/
lemma mem_leavesOuter (ntk : CellNtk) (gates : List Nat) :
    ∀ (rem acc : List Nat) (x : Nat),
      x ∈ rem.foldl (fun acc g => leavesInner gates (ntk.fanin g) acc) acc ↔
        x ∈ acc ∨ ∃ g ∈ rem, x ∈ ntk.fanin g ∧ x ∉ gates := by
  intro rem
  induction rem with
  | nil => intro acc x; simp
  | cons g rem ih =>
    intro acc x
    simp only [List.foldl_cons]
    rw [ih, mem_leavesInner]
    simp only [List.mem_cons]
    constructor
    · rintro ((hx | ⟨hxf, hxg⟩) | ⟨g', hg', hxf, hxg⟩)
      · exact Or.inl hx
      · exact Or.inr ⟨g, Or.inl rfl, hxf, hxg⟩
      · exact Or.inr ⟨g', Or.inr hg', hxf, hxg⟩
    · rintro (hx | ⟨g', rfl | hg', hxf, hxg⟩)
      · exact Or.inl (Or.inl hx)
      · exact Or.inl (Or.inr ⟨hxf, hxg⟩)
      · exact Or.inr ⟨g', hg', hxf, hxg⟩

/-- Helper: membership in the computed window leaves. -/
lemma mem_leavesOf (ntk : CellNtk) (gates : List Nat) (x : Nat) :
    x ∈ leavesOf ntk gates ↔ ∃ g ∈ gates, x ∈ ntk.fanin g ∧ x ∉ gates := by
  unfold leavesOf
  rw [mem_leavesOuter]
  simp

/-- Helper: `collect_mffc` touches only the traversal state. -/
lemma collect_mffc_preserves (ntk : CellNtk) (dfsFuel : Nat) (st : WinSt)
    (pivot : Nat) :
    (collect_mffc ntk dfsFuel st pivot).1.gates = st.gates ∧
    (collect_mffc ntk dfsFuel st pivot).1.nodes = st.nodes := ⟨rfl, rfl⟩

/-- Helper: the growth loop never lets `_gates` exceed `max_gates`. -/
lemma growLoop_gates_le (ntk : CellNtk) (maxGates dfsFuel : Nat) :
    ∀ (fuel : Nat) (st : WinSt), st.gates.length ≤ maxGates →
      (growLoop ntk maxGates dfsFuel fuel st).gates.length ≤ maxGates := by
  intro fuel
  induction fuel with
  | zero => intro st hst; simpa [growLoop] using hst
  | succ fuel ih =>
    intro st hst
    simp only [growLoop]
    rcases hf : find_next_pivot ntk st with ⟨opt, refs2⟩
    cases opt with
    | none => simpa using hst
    | some nxt =>
      simp only
      split
      · simpa [(collect_mffc_preserves ntk dfsFuel _ nxt).1] using hst
      · rename_i hgle
        apply ih
        simp only [add_node]
        have h1 := foldl_setInsert_length
          (collect_mffc ntk dfsFuel { st with cell_refs := refs2 } nxt).2
          (collect_mffc ntk dfsFuel { st with cell_refs := refs2 } nxt).1.gates
        omega

/-- C5: for every network and valid pivot (cell root whose initial MFFC fits
`max_gates`, i.e. `compute_window_for` completes), the computed window
satisfies `|gates| ≤ max_gates`, `roots ⊆ nodes`, `leaves ∩ gates = ∅`, and
every gate-fanin of a window gate is in `gates` or in `leaves`. -/
theorem C5_window_invariants (ntk : CellNtk) (maxGates loopFuel dfsFuel : Nat)
    (st : WinSt) (pivot : Nat) (st' : WinSt)
    (h : compute_window_for ntk maxGates loopFuel dfsFuel st pivot = some st') :
    st'.gates.length ≤ maxGates ∧
    (∀ r ∈ st'.roots, r ∈ st'.nodes) ∧
    (∀ x ∈ st'.leaves, x ∉ st'.gates) ∧
    (∀ g ∈ st'.gates, ∀ f ∈ ntk.fanin g, f ∈ st'.gates ∨ f ∈ st'.leaves) := by
  simp only [compute_window_for] at h
  split at h
  case isFalse => cases h
  case isTrue hroot =>
  split at h
  case isTrue => cases h
  case isFalse hguard =>
  rw [Option.some.injEq] at h
  subst h
  set st0 : WinSt := { st with nodes := [], gates := [] } with hst0
  set p := collect_mffc ntk dfsFuel st0 pivot with hp
  set stG := growLoop ntk maxGates dfsFuel loopFuel (add_node p.1 pivot p.2) with hstG
  have hgates : (find_leaves_and_roots ntk stG).gates = stG.gates := rfl
  have hnodes : (find_leaves_and_roots ntk stG).nodes = stG.nodes := rfl
  have hleaves : (find_leaves_and_roots ntk stG).leaves = leavesOf ntk stG.gates := rfl
  have hroots : (find_leaves_and_roots ntk stG).roots =
      stG.nodes.filter (fun n => derefAll ntk stG.nodes stG.cell_refs n != 0) := rfl
  refine ⟨?_, ?_, ?_, ?_⟩
  · rw [hgates, hstG]
    apply growLoop_gates_le
    simp only [add_node]
    have hpg : p.1.gates = st0.gates := (collect_mffc_preserves ntk dfsFuel st0 pivot).1
    have h1 := foldl_setInsert_length p.2 p.1.gates
    have hpg0 : p.1.gates.length = 0 := by rw [hpg]; rfl
    omega
  · intro r hr
    rw [hroots] at hr
    rw [hnodes]
    exact (List.mem_filter.mp hr).1
  · intro x hx
    rw [hleaves] at hx
    rw [hgates]
    obtain ⟨g, hg, hxf, hxg⟩ := (mem_leavesOf ntk stG.gates x).mp hx
    exact hxg
  · intro g hg f hf
    rw [hgates] at hg ⊢
    rw [hleaves]
    by_cases hfg : f ∈ stG.gates
    · exact Or.inl hfg
    · exact Or.inr ((mem_leavesOf ntk stG.gates f).mpr ⟨g, hg, hf, hfg⟩)

/-- C5 witness: on `exCellNtk` with pivot 2 the window computation succeeds
and all four invariants hold. -/
theorem C5_witness :
    compute_window_for exCellNtk 128 4 4 (initWin exCellNtk) 2 = some exWinResult ∧
    (exWinResult.gates.length ≤ 128 ∧
      (∀ r ∈ exWinResult.roots, r ∈ exWinResult.nodes) ∧
      (∀ x ∈ exWinResult.leaves, x ∉ exWinResult.gates) ∧
      (∀ g ∈ exWinResult.gates, ∀ f ∈ exCellNtk.fanin g,
        f ∈ exWinResult.gates ∨ f ∈ exWinResult.leaves)) :=
  ⟨rfl, C5_window_invariants exCellNtk 128 4 4 (initWin exCellNtk) 2 exWinResult rfl⟩

end Mockturtle
